import Mathlib

/-!
Verification of the `DataSequence` Keras `Sequence` subclass from the
`Keras-Sequence.ipynb` notebook.

The notebook defines (code cell 8):

* `load_image(im)` — loads an image from disk (an external, fallible step);
* `class DataSequence(Sequence)` with
  - `__init__(self, df, data_path, batch_size, mode='train')` storing the
    dataframe, the batch size in `self.bsz`, the mode, the `label` column in
    `self.labels` and the joined image paths in `self.im_list`;
  - `__len__` returning `int(math.ceil(len(self.df) / float(self.bsz)))`;
  - `on_epoch_end` setting `self.indexes = range(len(self.im_list))` and, in
    `'train'` mode, replacing it by `random.sample(self.indexes, k=len(self.indexes))`;
  - `get_batch_labels(idx)` returning `self.labels[idx*bsz : (idx+1)*bsz]`;
  - `get_batch_features(idx)` returning
    `np.array([load_image(im) for im in self.im_list[idx*bsz : (1+idx)*bsz]])`;
  - `__getitem__(idx)` returning the pair `(batch_x, batch_y)` of the two above.

The embedding below is a direct shallow translation: the dataframe is a list of
rows, numpy arrays and python lists are Lean lists, python slices (with
non-negative bounds, the only ones the code produces) are `take`/`drop`,
the fallible image loader is an `Option`-valued parameter, and the
randomness of `random.sample` is a function parameter constrained to produce
permutations.  Machine integers are `Nat` (none of the arithmetic can go
negative); the float division inside `__len__` is modelled as exact real
division, which is what it computes on every size representable in a double.
-/

/-- One row of the dataframe read from `TRAIN.csv`: an image file name and its
binary label (stored as an integer in the CSV). -/
structure Row where
  image_name : String
  label : Int
deriving Repr, DecidableEq

/-- Embedding of `os.path.join(a, b)` for two POSIX path components, as used in
`self.df['image_name'].apply(lambda x: os.path.join(data_path, x))`: if `b` is
absolute it wins; otherwise a separator is inserted unless `a` is empty or
already ends with one. -/
def osPathJoin (a b : String) : String :=
  if b.startsWith "/" then b
  else if a = "" ∨ a.endsWith "/" then a ++ b
  else a ++ "/" ++ b

/-- Embedding of a python slice `l[start:stop]` with non-negative bounds
(`start`, `stop` are products of non-negative ints in the code).  Python
slicing clamps at the end of the list and returns the empty list when the
range is empty or entirely out of range, exactly like `take`/`drop`. -/
def pySlice {α : Type} (l : List α) (start stop : Nat) : List α :=
  (l.take stop).drop start

/-- The state of a `DataSequence` object: the stored dataframe `df`, the batch
size `bsz`, the `mode` string, the label column `labels`, the joined image
paths `im_list`, and `indexes`, which is `none` until `on_epoch_end` first
assigns it (in python the attribute simply does not exist before that). -/
structure DataSequence where
  df : List Row
  bsz : Nat
  mode : String
  labels : List Int
  im_list : List String
  indexes : Option (List Nat)
deriving Repr

/-- Embedding of `DataSequence.__init__(self, df, data_path, batch_size, mode='train')`:
stores `df`, `bsz`, `mode`, takes `self.labels = self.df['label'].values` (the
label column in row order) and
`self.im_list = self.df['image_name'].apply(lambda x: os.path.join(data_path, x)).tolist()`. -/
def mkDataSequence (df : List Row) (data_path : String) (batch_size : Nat)
    (mode : String) : DataSequence :=
  { df := df
    bsz := batch_size
    mode := mode
    labels := df.map (fun r => r.label)
    im_list := df.map (fun r => osPathJoin data_path r.image_name)
    indexes := none }

/-- Embedding of `DataSequence.__len__`, i.e.
`int(math.ceil(len(self.df) / float(self.bsz)))`, with the float division
modelled as exact division: for `bsz ≥ 1` the result is the ceiling division
`⌈len(df) / bsz⌉`, computed on `Nat` as `(n + b - 1) / b`. -/
def lenDS (s : DataSequence) : Nat :=
  (s.df.length + s.bsz - 1) / s.bsz

/-- Embedding of `DataSequence.on_epoch_end`.  The call
`random.sample(population, k=len(population))` returns a fresh random
permutation of the population; its randomness is modelled by the function
parameter `sample`, which theorems constrain to produce permutations. -/
def on_epoch_end (sample : List Nat → List Nat) (s : DataSequence) : DataSequence :=
  { s with
    indexes :=
      some (if s.mode = "train" then sample (List.range s.im_list.length)
            else List.range s.im_list.length) }

/-- Embedding of `DataSequence.get_batch_labels(self, idx)`:
`self.labels[idx * self.bsz: (idx + 1) * self.bsz]`. -/
def get_batch_labels (s : DataSequence) (idx : Nat) : List Int :=
  pySlice s.labels (idx * s.bsz) ((idx + 1) * s.bsz)

/-- Sequential effectful map over a list, as performed by the list
comprehension `[load_image(im) for im in ...]` when each `load_image` call may
fail: the first failure aborts the whole comprehension. -/
def listMapOpt {α β : Type} (f : α → Option β) : List α → Option (List β)
  | [] => some []
  | x :: xs =>
    match f x with
    | none => none
    | some y =>
      match listMapOpt f xs with
      | none => none
      | some ys => some (y :: ys)

/-- Embedding of `DataSequence.get_batch_features(self, idx)`:
`np.array([load_image(im) for im in self.im_list[idx * self.bsz: (1 + idx) * self.bsz]])`.
The external image loader is the parameter `load_image`; it returns `none`
where the python function would raise (missing file, malformed image). -/
def get_batch_features {Img : Type} (load_image : String → Option Img)
    (s : DataSequence) (idx : Nat) : Option (List Img) :=
  listMapOpt load_image (pySlice s.im_list (idx * s.bsz) ((1 + idx) * s.bsz))

/-- Embedding of `DataSequence.__getitem__(self, idx)`: computes
`batch_x = self.get_batch_features(idx)`, `batch_y = self.get_batch_labels(idx)`
and returns `(batch_x, batch_y)`.  A failure inside `get_batch_features`
propagates out of the call unhandled (`none`). -/
def getItem {Img : Type} (load_image : String → Option Img)
    (s : DataSequence) (idx : Nat) : Option (List Img × List Int) :=
  match get_batch_features load_image s idx with
  | none => none
  | some batch_x => some (batch_x, get_batch_labels s idx)

/-! ## Basic lemmas about the embedding -/

lemma pySlice_length {α : Type} (l : List α) (a c : Nat) :
    (pySlice l a c).length = min c l.length - a := by
  simp [pySlice]

lemma pySlice_getElem? {α : Type} (l : List α) (a c k : Nat) :
    (pySlice l a c)[k]? = if a + k < c then l[a + k]? else none := by
  unfold pySlice
  rw [List.getElem?_drop, List.getElem?_take]

lemma pySlice_eq_nil_of_le {α : Type} (l : List α) (a c : Nat)
    (h : l.length ≤ a) : pySlice l a c = [] := by
  unfold pySlice
  apply List.drop_eq_nil_of_le
  have : (l.take c).length ≤ l.length := by
    simp [List.length_take]
  omega

lemma listMapOpt_total {α Img : Type} (loader : α → Img) (l : List α) :
    listMapOpt (fun x => some (loader x)) l = some (l.map loader) := by
  induction l with
  | nil => rfl
  | cons x xs ih => simp [listMapOpt, ih]

lemma listMapOpt_none_of_mem {α β : Type} (f : α → Option β) (l : List α)
    (x : α) (hx : x ∈ l) (hf : f x = none) : listMapOpt f l = none := by
  induction l with
  | nil => cases hx
  | cons y ys ih =>
    rcases List.mem_cons.mp hx with h | h
    · subst h
      simp [listMapOpt, hf]
    · unfold listMapOpt
      cases hfy : f y with
      | none => rfl
      | some v => rw [ih h]

/-- The Galois characterisation of the batch count: for `b ≥ 1`,
`(n + b - 1) / b ≤ m ↔ n ≤ m * b`, i.e. `(n + b - 1) / b` is the least `m`
with `m * b ≥ n` — ceiling division. -/
lemma ceil_div_le_iff (n b m : Nat) (hb : 1 ≤ b) :
    (n + b - 1) / b ≤ m ↔ n ≤ m * b := by
  rw [← Nat.lt_succ_iff, Nat.div_lt_iff_lt_mul (by omega : 0 < b), Nat.succ_mul]
  omega

lemma le_lenDS_mul (n b : Nat) (hb : 1 ≤ b) : n ≤ ((n + b - 1) / b) * b :=
  (ceil_div_le_iff n b _ hb).mp (le_refl _)

lemma mul_lt_of_lt_ceil (n b idx : Nat) (hb : 1 ≤ b)
    (h : idx < (n + b - 1) / b) : idx * b < n := by
  by_contra hc
  push_neg at hc
  exact absurd ((ceil_div_le_iff n b idx hb).mpr hc) (by omega)

lemma get_batch_labels_length (s : DataSequence) (idx : Nat) :
    (get_batch_labels s idx).length =
      min ((idx + 1) * s.bsz) s.labels.length - idx * s.bsz := by
  unfold get_batch_labels
  rw [pySlice_length]

lemma range_flatMap_pySlice {α : Type} (l : List α) (b m : Nat) :
    (List.range m).flatMap (fun i => pySlice l (i * b) ((i + 1) * b)) =
      l.take (m * b) := by
  induction m with
  | zero => simp
  | succ k ih =>
    rw [List.range_succ, List.flatMap_append, ih]
    simp only [List.flatMap_cons, List.flatMap_nil, List.append_nil]
    unfold pySlice
    have h1 : List.take (k * b) l = List.take (k * b) (List.take ((k + 1) * b) l) := by
      rw [List.take_take]
      congr 1
      have h2 : k * b ≤ (k + 1) * b := Nat.mul_le_mul_right b (by omega)
      omega
    rw [h1, List.take_append_drop]

/-! ## The claims -/

/-- C7: construction builds two parallel lists from the table: `labels` is the
`label` column of `df` in row order, the `k`-th element of `im_list` is the
join of `data_path` with the `k`-th `image_name` of `df`, both lists have
length `n`, the `k`-th path is paired with the `k`-th label, and `batch_size`
and `mode` are stored unchanged. -/
theorem init_builds_parallel_lists (df : List Row) (p : String) (b : Nat) (m : String) :
    (mkDataSequence df p b m).labels = df.map (fun r => r.label) ∧
    (mkDataSequence df p b m).im_list = df.map (fun r => osPathJoin p r.image_name) ∧
    (mkDataSequence df p b m).labels.length = df.length ∧
    (mkDataSequence df p b m).im_list.length = df.length ∧
    (∀ (k : Nat) (r : Row), df[k]? = some r →
      (mkDataSequence df p b m).im_list[k]? = some (osPathJoin p r.image_name) ∧
      (mkDataSequence df p b m).labels[k]? = some r.label) ∧
    (mkDataSequence df p b m).bsz = b ∧
    (mkDataSequence df p b m).mode = m := by
  refine ⟨rfl, rfl, by simp [mkDataSequence], by simp [mkDataSequence], ?_, rfl, rfl⟩
  intro k r hk
  have h1 : (mkDataSequence df p b m).im_list[k]? =
      (df[k]?).map (fun r => osPathJoin p r.image_name) := by
    show (df.map (fun r => osPathJoin p r.image_name))[k]? = _
    rw [List.getElem?_map]
  have h2 : (mkDataSequence df p b m).labels[k]? = (df[k]?).map (fun r => r.label) := by
    show (df.map (fun r => r.label))[k]? = _
    rw [List.getElem?_map]
  rw [h1, h2, hk]
  exact ⟨rfl, rfl⟩

/-- C2: for a `DataSequence` built from a table with `n` rows and a batch size
`b ≥ 1`, `__len__` returns the ceiling division `⌈n / b⌉` (the division inside
`int(math.ceil(len(self.df) / float(self.bsz)))` stated over exact rational
arithmetic). -/
theorem len_is_ceiling_div (df : List Row) (p : String) (b : Nat) (m : String)
    (s : DataSequence) (hs : s = mkDataSequence df p b m) (hb : 1 ≤ b) :
    lenDS s = ⌈(df.length : ℚ) / (b : ℚ)⌉₊ := by
  subst hs
  have hb0 : (0 : ℚ) < (b : ℚ) := by exact_mod_cast (by omega : 0 < b)
  have hlen : lenDS (mkDataSequence df p b m) = (df.length + b - 1) / b := rfl
  rw [hlen]
  apply le_antisymm
  · rw [ceil_div_le_iff _ _ _ hb]
    have h1 : (df.length : ℚ) / (b : ℚ) ≤ ((⌈(df.length : ℚ) / (b : ℚ)⌉₊ : ℕ) : ℚ) :=
      Nat.le_ceil _
    have h2 : (df.length : ℚ) ≤ ((⌈(df.length : ℚ) / (b : ℚ)⌉₊ : ℕ) : ℚ) * (b : ℚ) :=
      (div_le_iff₀ hb0).mp h1
    exact_mod_cast h2
  · rw [Nat.ceil_le, div_le_iff₀ hb0]
    exact_mod_cast le_lenDS_mul df.length b hb

/-- C6: every call to `on_epoch_end` sets `indexes` to the in-order sequence
`0 .. len(im_list)-1`; in `'train'` mode it then replaces it with the
permutation produced by `random.sample` (each index appearing exactly once);
in any other mode `indexes` stays the in-order sequence. -/
theorem on_epoch_end_shuffles_indexes (s : DataSequence)
    (sample : List Nat → List Nat)
    (hsample : ∀ l : List Nat, (sample l).Perm l) :
    (on_epoch_end sample s).indexes =
      some (if s.mode = "train" then sample (List.range s.im_list.length)
            else List.range s.im_list.length) ∧
    (∀ l, (on_epoch_end sample s).indexes = some l →
      l.Perm (List.range s.im_list.length)) ∧
    (s.mode ≠ "train" →
      (on_epoch_end sample s).indexes = some (List.range s.im_list.length)) := by
  refine ⟨rfl, ?_, ?_⟩
  · intro l hl
    have hx : some (if s.mode = "train" then sample (List.range s.im_list.length)
        else List.range s.im_list.length) = some l := hl
    have hx2 := Option.some.inj hx
    rw [← hx2]
    by_cases hm : s.mode = "train"
    · rw [if_pos hm]
      exact hsample _
    · rw [if_neg hm]
  · intro hm
    simp [on_epoch_end, hm]

/-- C9: `on_epoch_end` has no effect on the data delivered: it modifies only
the `indexes` attribute, and `__getitem__`, `get_batch_labels` and
`get_batch_features` never read that attribute (nor `mode`), so every batch is
identical before and after any number of `on_epoch_end` calls, and is the
same whatever the mode is. -/
theorem on_epoch_end_frame {Img : Type} (s : DataSequence)
    (sample : List Nat → List Nat) (load_image : String → Option Img) (idx : Nat) :
    getItem load_image (on_epoch_end sample s) idx = getItem load_image s idx ∧
    (∀ k : Nat, getItem load_image ((on_epoch_end sample)^[k] s) idx =
      getItem load_image s idx) ∧
    (on_epoch_end sample s).labels = s.labels ∧
    (on_epoch_end sample s).im_list = s.im_list ∧
    (on_epoch_end sample s).bsz = s.bsz ∧
    (on_epoch_end sample s).mode = s.mode ∧
    (on_epoch_end sample s).df = s.df ∧
    (∀ m2 : String, getItem load_image { s with mode := m2 } idx =
      getItem load_image s idx) ∧
    get_batch_labels (on_epoch_end sample s) idx = get_batch_labels s idx ∧
    get_batch_features load_image (on_epoch_end sample s) idx =
      get_batch_features load_image s idx := by
  have hstep : ∀ t : DataSequence,
      getItem load_image (on_epoch_end sample t) idx = getItem load_image t idx :=
    fun t => rfl
  refine ⟨hstep s, ?_, rfl, rfl, rfl, rfl, rfl, fun m2 => rfl, rfl, rfl⟩
  intro k
  induction k with
  | zero => rfl
  | succ n ih => rw [Function.iterate_succ_apply', hstep, ih]

/-- C8: no operation validates inputs or handles errors: when an underlying
step fails (here, `load_image` on some path of the requested slice), the
failure propagates out of `get_batch_features` and `__getitem__` unhandled.
The embedding is pure — no operation other than `on_epoch_end` writes any
field, so the state observable through the fields is unchanged by the failed
call by construction. -/
theorem failures_propagate_unhandled {Img : Type} (s : DataSequence)
    (load_image : String → Option Img) (idx : Nat) (path : String)
    (hmem : path ∈ pySlice s.im_list (idx * s.bsz) ((1 + idx) * s.bsz))
    (hfail : load_image path = none) :
    get_batch_features load_image s idx = none ∧
    getItem load_image s idx = none := by
  have hfeat : get_batch_features load_image s idx = none := by
    unfold get_batch_features
    exact listMapOpt_none_of_mem _ _ _ hmem hfail
  exact ⟨hfeat, by simp only [getItem, hfeat]⟩

/-- C10: out-of-range batch indices do not fail: for `b ≥ 1` and
`idx ≥ __len__()` the slices start at or past `n`, hence are empty, and
`__getitem__` returns an empty feature array paired with the empty label
slice (for any loader — no image is ever loaded) instead of signalling an
out-of-range index. -/
theorem out_of_range_idx_returns_empty {Img : Type} (df : List Row) (p : String)
    (b : Nat) (m : String) (s : DataSequence) (hs : s = mkDataSequence df p b m)
    (hb : 1 ≤ b) (load_image : String → Option Img) (idx : Nat)
    (hidx : lenDS s ≤ idx) :
    get_batch_labels s idx = [] ∧
    get_batch_features load_image s idx = some [] ∧
    getItem load_image s idx = some ([], []) := by
  subst hs
  have hidx2 : (df.length + b - 1) / b ≤ idx := hidx
  have hn : df.length ≤ idx * b := (ceil_div_le_iff df.length b idx hb).mp hidx2
  have hfeat : get_batch_features load_image (mkDataSequence df p b m) idx = some [] := by
    unfold get_batch_features
    rw [pySlice_eq_nil_of_le]
    · rfl
    · simpa [mkDataSequence] using hn
  have hlabs : get_batch_labels (mkDataSequence df p b m) idx = [] := by
    unfold get_batch_labels
    apply pySlice_eq_nil_of_le
    simpa [mkDataSequence] using hn
  refine ⟨hlabs, hfeat, ?_⟩
  simp only [getItem, hfeat, hlabs]

/-- C1: `__getitem__(idx)` returns the pair `(features, labels)` in which
`labels` is the contiguous slice `self.labels[idx*b : (idx+1)*b]`, `features`
is the array of images loaded from the same contiguous slice
`self.im_list[idx*b : (1+idx)*b]`, the two have the same length, and for every
`k` the `k`-th feature of the batch is the image loaded from the file path of
the `k`-th row of the slice, paired with that row's label. -/
theorem getitem_returns_parallel_batches {Img : Type} (df : List Row) (p : String)
    (b : Nat) (m : String) (s : DataSequence) (hs : s = mkDataSequence df p b m)
    (hb : 1 ≤ b) (loader : String → Img) (idx : Nat) :
    getItem (fun im => some (loader im)) s idx =
      some ((pySlice s.im_list (idx * b) ((1 + idx) * b)).map loader,
            pySlice s.labels (idx * b) ((idx + 1) * b)) ∧
    ((pySlice s.im_list (idx * b) ((1 + idx) * b)).map loader).length =
      (pySlice s.labels (idx * b) ((idx + 1) * b)).length ∧
    (∀ k : Nat, k < (pySlice s.labels (idx * b) ((idx + 1) * b)).length →
      ∃ r : Row, df[idx * b + k]? = some r ∧
        ((pySlice s.im_list (idx * b) ((1 + idx) * b)).map loader)[k]? =
          some (loader (osPathJoin p r.image_name)) ∧
        (pySlice s.labels (idx * b) ((idx + 1) * b))[k]? = some r.label) := by
  subst hs
  have hone : (1 + idx) * b = (idx + 1) * b := by ring
  have hfeat : get_batch_features (fun im => some (loader im))
      (mkDataSequence df p b m) idx =
      some ((pySlice (mkDataSequence df p b m).im_list (idx * b) ((1 + idx) * b)).map loader) := by
    unfold get_batch_features
    exact listMapOpt_total loader _
  refine ⟨by simp only [getItem, hfeat]; rfl, ?_, ?_⟩
  · rw [List.length_map, pySlice_length, pySlice_length]
    have h1 : (mkDataSequence df p b m).im_list.length = df.length := by
      simp [mkDataSequence]
    have h2 : (mkDataSequence df p b m).labels.length = df.length := by
      simp [mkDataSequence]
    rw [h1, h2, hone]
  · intro k hk
    rw [pySlice_length] at hk
    have h2 : (mkDataSequence df p b m).labels.length = df.length := by
      simp [mkDataSequence]
    rw [h2] at hk
    have hk1 : idx * b + k < (idx + 1) * b := by omega
    have hk2 : idx * b + k < df.length := by omega
    refine ⟨df[idx * b + k], List.getElem?_eq_getElem hk2, ?_, ?_⟩
    · rw [List.getElem?_map, pySlice_getElem?, if_pos (by omega : idx * b + k < (1 + idx) * b)]
      have h3 : (mkDataSequence df p b m).im_list[idx * b + k]? =
          some (osPathJoin p (df[idx * b + k]).image_name) := by
        show (df.map (fun r => osPathJoin p r.image_name))[idx * b + k]? = _
        rw [List.getElem?_map, List.getElem?_eq_getElem hk2]
        rfl
      rw [h3]
      rfl
    · rw [pySlice_getElem?, if_pos hk1]
      show (df.map (fun r => r.label))[idx * b + k]? = _
      rw [List.getElem?_map, List.getElem?_eq_getElem hk2]
      rfl

/-- C3: within one epoch every sample is taken at most once: for distinct
batch indices `i < j < __len__()` the index ranges of the two batches are
disjoint, and the concatenation of all batches over indices
`0 .. __len__()-1` is exactly the label list (and exactly the path list), so
every one of the `n` samples is covered exactly once. -/
theorem epoch_batches_partition_samples (df : List Row) (p : String) (b : Nat)
    (m : String) (s : DataSequence) (hs : s = mkDataSequence df p b m)
    (hb : 1 ≤ b) :
    ((List.range (lenDS s)).flatMap (fun i => get_batch_labels s i) = s.labels) ∧
    ((List.range (lenDS s)).flatMap
        (fun i => pySlice s.im_list (i * b) ((1 + i) * b)) = s.im_list) ∧
    (∀ i j t : Nat, i < j → j < lenDS s →
      i * b ≤ t ∧ t < (i + 1) * b → ¬ (j * b ≤ t ∧ t < (j + 1) * b)) := by
  subst hs
  have hlen : lenDS (mkDataSequence df p b m) = (df.length + b - 1) / b := rfl
  have hlab : (mkDataSequence df p b m).labels.length = df.length := by
    simp [mkDataSequence]
  have him : (mkDataSequence df p b m).im_list.length = df.length := by
    simp [mkDataSequence]
  have hup : df.length ≤ ((df.length + b - 1) / b) * b := le_lenDS_mul df.length b hb
  refine ⟨?_, ?_, ?_⟩
  · show (List.range ((df.length + b - 1) / b)).flatMap
        (fun i => pySlice (mkDataSequence df p b m).labels (i * b) ((i + 1) * b)) = _
    rw [range_flatMap_pySlice]
    apply List.take_of_length_le
    omega
  · have hcomm : (fun i => pySlice (mkDataSequence df p b m).im_list (i * b) ((1 + i) * b))
        = fun i => pySlice (mkDataSequence df p b m).im_list (i * b) ((i + 1) * b) := by
      funext i
      rw [Nat.add_comm 1 i]
    show (List.range ((df.length + b - 1) / b)).flatMap
        (fun i => pySlice (mkDataSequence df p b m).im_list (i * b) ((1 + i) * b)) = _
    rw [hcomm, range_flatMap_pySlice]
    apply List.take_of_length_le
    omega
  · intro i j t hij hj ht
    intro hcontra
    have hmul : (i + 1) * b ≤ j * b := Nat.mul_le_mul_right b (by omega)
    omega

/-- C4: index ranges stay within list bounds: for `n ≥ 1`, `b ≥ 1` and every
in-range batch index `idx < __len__()`, the slice start `idx*b` is strictly
below `n`, the label and feature slices are non-empty, and every element
position of the batch corresponds to an in-bounds index of both the label
list and the image-path list. -/
theorem batch_slices_stay_in_bounds (df : List Row) (p : String) (b : Nat)
    (m : String) (s : DataSequence) (hs : s = mkDataSequence df p b m)
    (hb : 1 ≤ b) (hn : 1 ≤ df.length) (idx : Nat) (hidx : idx < lenDS s) :
    idx * b < df.length ∧
    get_batch_labels s idx ≠ [] ∧
    pySlice s.im_list (idx * b) ((1 + idx) * b) ≠ [] ∧
    (∀ k : Nat, k < (get_batch_labels s idx).length →
      idx * b + k < s.labels.length ∧ idx * b + k < s.im_list.length) := by
  subst hs
  have hidx2 : idx < (df.length + b - 1) / b := hidx
  have hmul : idx * b < df.length := mul_lt_of_lt_ceil df.length b idx hb hidx2
  have hlab : (mkDataSequence df p b m).labels.length = df.length := by
    simp [mkDataSequence]
  have him : (mkDataSequence df p b m).im_list.length = df.length := by
    simp [mkDataSequence]
  have hbsz : (mkDataSequence df p b m).bsz = b := rfl
  have hsucc : (idx + 1) * b = idx * b + b := Nat.succ_mul idx b
  refine ⟨hmul, ?_, ?_, ?_⟩
  · rw [← List.length_pos, get_batch_labels_length, hbsz, hlab]
    omega
  · rw [← List.length_pos, pySlice_length, him]
    have hone : (1 + idx) * b = idx * b + b := by ring
    omega
  · intro k hk
    rw [get_batch_labels_length, hbsz, hlab] at hk
    rw [hlab, him]
    omega

/-- C5: modulo-free last-batch slicing: for `n ≥ 1` and `b ≥ 1`, the batch at
the last index `idx = __len__() - 1` has exactly `n - idx*b` elements — `n mod b`
when `b` does not divide `n` and `b` otherwise — obtained purely by the slice
clamping at the end of the lists. -/
theorem last_batch_size (df : List Row) (p : String) (b : Nat) (m : String)
    (s : DataSequence) (hs : s = mkDataSequence df p b m) (hb : 1 ≤ b)
    (hn : 1 ≤ df.length) :
    (get_batch_labels s (lenDS s - 1)).length = df.length - (lenDS s - 1) * b ∧
    (pySlice s.im_list ((lenDS s - 1) * b) ((1 + (lenDS s - 1)) * b)).length =
      df.length - (lenDS s - 1) * b ∧
    (get_batch_labels s (lenDS s - 1)).length =
      (if b ∣ df.length then b else df.length % b) := by
  subst hs
  have hlen : lenDS (mkDataSequence df p b m) = (df.length + b - 1) / b := rfl
  have hlab : (mkDataSequence df p b m).labels.length = df.length := by
    simp [mkDataSequence]
  have him : (mkDataSequence df p b m).im_list.length = df.length := by
    simp [mkDataSequence]
  have hbsz : (mkDataSequence df p b m).bsz = b := rfl
  have hL1 : 1 ≤ (df.length + b - 1) / b := by
    by_contra hc
    push_neg at hc
    have h0 : (df.length + b - 1) / b ≤ 0 := by omega
    have h1 : df.length ≤ 0 * b := (ceil_div_le_iff df.length b 0 hb).mp h0
    rw [Nat.zero_mul] at h1
    omega
  have hub : df.length ≤ ((df.length + b - 1) / b) * b := le_lenDS_mul df.length b hb
  have hlb : ((df.length + b - 1) / b - 1) * b < df.length :=
    mul_lt_of_lt_ceil df.length b _ hb (by omega)
  have hmain : (get_batch_labels (mkDataSequence df p b m)
      (lenDS (mkDataSequence df p b m) - 1)).length =
      df.length - (lenDS (mkDataSequence df p b m) - 1) * b := by
    rw [get_batch_labels_length, hbsz, hlab, hlen]
    have hsucc : ((df.length + b - 1) / b - 1) + 1 = (df.length + b - 1) / b := by
      omega
    rw [hsucc]
    omega
  refine ⟨hmain, ?_, ?_⟩
  · rw [pySlice_length, him, hlen]
    have hsucc2 : 1 + ((df.length + b - 1) / b - 1) = (df.length + b - 1) / b := by
      omega
    rw [hsucc2]
    omega
  · rw [hmain, hlen]
    by_cases hdvd : b ∣ df.length
    · rw [if_pos hdvd]
      obtain ⟨q, hq⟩ := hdvd
      have hq2 : df.length = q * b := by rw [hq, Nat.mul_comm]
      have hq1 : 1 ≤ q := by
        rcases Nat.eq_zero_or_pos q with h0 | h1
        · subst h0
          simp at hq2
          omega
        · exact h1
      have hqL : q ≤ (df.length + b - 1) / b := by
        apply Nat.le_of_mul_le_mul_right ?_ (by omega : 0 < b)
        calc q * b = df.length := hq2.symm
          _ ≤ ((df.length + b - 1) / b) * b := hub
      have hLq : (df.length + b - 1) / b - 1 < q := by
        apply Nat.lt_of_mul_lt_mul_right (a := b)
        calc ((df.length + b - 1) / b - 1) * b < df.length := hlb
          _ = q * b := hq2
      have hLeq : (df.length + b - 1) / b = q := by omega
      rw [hLeq, hq2]
      have h5 : (q - 1 + 1) * b = (q - 1) * b + b := Nat.succ_mul _ _
      have h6 : q - 1 + 1 = q := by omega
      rw [h6] at h5
      omega
    · rw [if_neg hdvd]
      have hr0 : df.length % b ≠ 0 := fun h0 => hdvd (Nat.dvd_of_mod_eq_zero h0)
      have hrb : df.length % b < b := Nat.mod_lt _ (by omega)
      have hdm : b * (df.length / b) + df.length % b = df.length := Nat.div_add_mod _ _
      have hq2 : (df.length / b) * b + df.length % b = df.length := by
        rw [Nat.mul_comm] at hdm
        exact hdm
      have hqL : df.length / b < (df.length + b - 1) / b := by
        apply Nat.lt_of_mul_lt_mul_right (a := b)
        calc (df.length / b) * b < df.length := by omega
          _ ≤ ((df.length + b - 1) / b) * b := hub
      have hLq : (df.length + b - 1) / b - 1 < df.length / b + 1 := by
        apply Nat.lt_of_mul_lt_mul_right (a := b)
        calc ((df.length + b - 1) / b - 1) * b < df.length := hlb
          _ ≤ (df.length / b + 1) * b := by
            have h5 : (df.length / b + 1) * b = (df.length / b) * b + b :=
              Nat.succ_mul _ _
            omega
      have hLeq : (df.length + b - 1) / b = df.length / b + 1 := by omega
      rw [hLeq]
      have h6 : df.length / b + 1 - 1 = df.length / b := by omega
      rw [h6]
      omega

/-! ## Concrete witnesses

A small concrete table (three rows, batch size 2, so the last batch is a
partial one) on which each hypothesis-bearing theorem is instantiated. -/

def demoDF : List Row :=
  [⟨"a.jpg", 1⟩, ⟨"b.jpg", 0⟩, ⟨"c.jpg", 1⟩]

def demoSeq : DataSequence :=
  mkDataSequence demoDF "./im" 2 "train"

/-- Witness for C1 at the demo table, batch size 2, batch index 0, with the
string-length function as a concrete total image loader. -/
theorem getitem_returns_parallel_batches_witness :
    1 ≤ 2 ∧
    (getItem (fun im => some im.length) demoSeq 0 =
      some ((pySlice demoSeq.im_list (0 * 2) ((1 + 0) * 2)).map (fun im => im.length),
            pySlice demoSeq.labels (0 * 2) ((0 + 1) * 2)) ∧
    ((pySlice demoSeq.im_list (0 * 2) ((1 + 0) * 2)).map (fun im => im.length)).length =
      (pySlice demoSeq.labels (0 * 2) ((0 + 1) * 2)).length ∧
    (∀ k : Nat, k < (pySlice demoSeq.labels (0 * 2) ((0 + 1) * 2)).length →
      ∃ r : Row, demoDF[0 * 2 + k]? = some r ∧
        ((pySlice demoSeq.im_list (0 * 2) ((1 + 0) * 2)).map (fun im => im.length))[k]? =
          some ((osPathJoin "./im" r.image_name).length) ∧
        (pySlice demoSeq.labels (0 * 2) ((0 + 1) * 2))[k]? = some r.label)) :=
  ⟨by decide,
   getitem_returns_parallel_batches demoDF "./im" 2 "train" demoSeq rfl (by decide)
     (fun im => im.length) 0⟩

/-- Witness for C2 at the demo table: three rows, batch size 2, so
`__len__` is `⌈3 / 2⌉ = 2`. -/
theorem len_is_ceiling_div_witness :
    1 ≤ 2 ∧ lenDS demoSeq = ⌈(demoDF.length : ℚ) / ((2 : Nat) : ℚ)⌉₊ :=
  ⟨by decide, len_is_ceiling_div demoDF "./im" 2 "train" demoSeq rfl (by decide)⟩

/-- Witness for C3 at the demo table: the two batches `[0,1]` and `[2]`
partition the three samples. -/
theorem epoch_batches_partition_samples_witness :
    1 ≤ 2 ∧
    (((List.range (lenDS demoSeq)).flatMap (fun i => get_batch_labels demoSeq i) =
      demoSeq.labels) ∧
    ((List.range (lenDS demoSeq)).flatMap
        (fun i => pySlice demoSeq.im_list (i * 2) ((1 + i) * 2)) = demoSeq.im_list) ∧
    (∀ i j t : Nat, i < j → j < lenDS demoSeq →
      i * 2 ≤ t ∧ t < (i + 1) * 2 → ¬ (j * 2 ≤ t ∧ t < (j + 1) * 2))) :=
  ⟨by decide,
   epoch_batches_partition_samples demoDF "./im" 2 "train" demoSeq rfl (by decide)⟩

/-- Witness for C4 at the demo table, at the last in-range index `idx = 1`:
the slice starts at `2 < 3` and stays in bounds. -/
theorem batch_slices_stay_in_bounds_witness :
    1 ≤ 2 ∧ 1 ≤ demoDF.length ∧ 1 < lenDS demoSeq ∧
    (1 * 2 < demoDF.length ∧
    get_batch_labels demoSeq 1 ≠ [] ∧
    pySlice demoSeq.im_list (1 * 2) ((1 + 1) * 2) ≠ [] ∧
    (∀ k : Nat, k < (get_batch_labels demoSeq 1).length →
      1 * 2 + k < demoSeq.labels.length ∧ 1 * 2 + k < demoSeq.im_list.length)) :=
  ⟨by decide, by decide, by decide,
   batch_slices_stay_in_bounds demoDF "./im" 2 "train" demoSeq rfl (by decide)
     (by decide) 1 (by decide)⟩

/-- Witness for C5 at the demo table: `3 = 1*2 + 1` rows, so the last batch
(index 1) has `3 - 2 = 1 = 3 mod 2` element. -/
theorem last_batch_size_witness :
    1 ≤ 2 ∧ 1 ≤ demoDF.length ∧
    ((get_batch_labels demoSeq (lenDS demoSeq - 1)).length =
      demoDF.length - (lenDS demoSeq - 1) * 2 ∧
    (pySlice demoSeq.im_list ((lenDS demoSeq - 1) * 2)
        ((1 + (lenDS demoSeq - 1)) * 2)).length =
      demoDF.length - (lenDS demoSeq - 1) * 2 ∧
    (get_batch_labels demoSeq (lenDS demoSeq - 1)).length =
      (if 2 ∣ demoDF.length then 2 else demoDF.length % 2)) :=
  ⟨by decide, by decide,
   last_batch_size demoDF "./im" 2 "train" demoSeq rfl (by decide) (by decide)⟩

/-- Witness for C6 at the demo sequence (which is in `'train'` mode), with
list reversal as a concrete permutation-producing `random.sample`. -/
theorem on_epoch_end_shuffles_indexes_witness :
    (∀ l : List Nat, l.reverse.Perm l) ∧
    ((on_epoch_end (fun l => l.reverse) demoSeq).indexes =
      some (if demoSeq.mode = "train" then (List.range demoSeq.im_list.length).reverse
            else List.range demoSeq.im_list.length) ∧
    (∀ l, (on_epoch_end (fun l => l.reverse) demoSeq).indexes = some l →
      l.Perm (List.range demoSeq.im_list.length)) ∧
    (demoSeq.mode ≠ "train" →
      (on_epoch_end (fun l => l.reverse) demoSeq).indexes =
        some (List.range demoSeq.im_list.length))) :=
  ⟨fun l => List.reverse_perm l,
   on_epoch_end_shuffles_indexes demoSeq (fun l => l.reverse)
     (fun l => List.reverse_perm l)⟩

/-- Witness for C8: a loader that fails on every path (e.g. the image
directory is missing) makes `get_batch_features` and `__getitem__` fail on
the first batch of the demo sequence. -/
theorem failures_propagate_unhandled_witness :
    (osPathJoin "./im" "a.jpg" ∈
      pySlice demoSeq.im_list (0 * demoSeq.bsz) ((1 + 0) * demoSeq.bsz)) ∧
    ((fun _ : String => (none : Option Nat)) (osPathJoin "./im" "a.jpg") = none) ∧
    (get_batch_features (fun _ : String => (none : Option Nat)) demoSeq 0 = none ∧
    getItem (fun _ : String => (none : Option Nat)) demoSeq 0 = none) :=
  ⟨List.Mem.head _, rfl,
   failures_propagate_unhandled demoSeq (fun _ => none) 0
     (osPathJoin "./im" "a.jpg") (List.Mem.head _) rfl⟩

/-- Witness for C10 at the demo sequence: `__len__` is 2, and the
out-of-range index 5 yields the empty batch (even with a loader that would
fail on every path — no image is loaded). -/
theorem out_of_range_idx_returns_empty_witness :
    1 ≤ 2 ∧ lenDS demoSeq ≤ 5 ∧
    (get_batch_labels demoSeq 5 = [] ∧
    get_batch_features (fun _ : String => (none : Option Nat)) demoSeq 5 = some [] ∧
    getItem (fun _ : String => (none : Option Nat)) demoSeq 5 = some ([], [])) :=
  ⟨by decide, by decide,
   out_of_range_idx_returns_empty demoDF "./im" 2 "train" demoSeq rfl (by decide)
     (fun _ => none) 5 (by decide)⟩
